import Mathlib

/-!
Verification of vivarium-core claims: a shallow embedding of the
dictionary-merge helpers in `vivarium/library/dict_utils.py`, and
spec-modelled embeddings of the engine scheduler, step dependency
graph and store (whose sources are not part of this tree).
-/

/-! ## Generic association-list helpers (Python dicts keep insertion
order and unique keys; we model them as ordered key/value lists). -/

/-- First value bound to `key`, scanning left to right (Python `d[k]`). -/
def lookupKey {α : Type} : List (String × α) → String → Option α
  | [], _ => none
  | (k, v) :: rest, key => if k = key then some v else lookupKey rest key

/-- Python `d[k] = v`: replace the value at the first occurrence of
`key`, or append a fresh entry at the end (insertion order). -/
def setKey {α : Type} : List (String × α) → String → α → List (String × α)
  | [], key, v => [(key, v)]
  | (k, w) :: rest, key, v =>
    if k = key then (key, v) :: rest else (k, w) :: setKey rest key v

/-- The keys of an association list, in order. -/
def keysOf {α : Type} (l : List (String × α)) : List String :=
  l.map Prod.fst

/-- No key occurs twice (true of every real Python dict). -/
def nodupKeys {α : Type} : List (String × α) → Bool
  | [] => true
  | (k, _) :: rest => !(rest.any (fun kv => kv.1 = k)) && nodupKeys rest

/-! ## Python values

The merge helpers distinguish dicts (recursed into), lists, and all
other objects.  `id` models object identity: `x is y` holds exactly
when the two sides are the same term, and distinct Python objects that
happen to be `==`-equal are written with distinct ids. -/

/-- A Python value as seen by `dict_utils`: a non-container object
(with identity and `==`-payload), a list, or a dict. -/
inductive PyVal : Type where
  | obj (id : Nat) (payload : Int) : PyVal
  | pylist (id : Nat) (items : List PyVal) : PyVal
  | pydict (id : Nat) (entries : List (String × PyVal)) : PyVal
deriving Repr

mutual

/-- Structural equality of Python values, identity included. -/
def beqVal : PyVal → PyVal → Bool
  | .obj i p, .obj j q => i = j && p = q
  | .pylist i xs, .pylist j ys => i = j && beqItems xs ys
  | .pydict i es, .pydict j fs => i = j && beqEntries es fs
  | _, _ => false

/-- Structural equality of value lists. -/
def beqItems : List PyVal → List PyVal → Bool
  | [], [] => true
  | x :: xs, y :: ys => beqVal x y && beqItems xs ys
  | _, _ => false

/-- Structural equality of entry lists. -/
def beqEntries : List (String × PyVal) → List (String × PyVal) → Bool
  | [], [] => true
  | (k, v) :: rest, (k2, w) :: rest2 =>
    k = k2 && beqVal v w && beqEntries rest rest2
  | _, _ => false

end

/-- Python `is`: same object.  Identity is part of the term, so two
values are the same object exactly when they are the same term, ids
included. -/
def pyIs (a b : PyVal) : Bool :=
  beqVal a b

mutual

/-- Python `==` between values: identity is ignored; dicts compare as
equal key sets with `==`-equal values, lists compare elementwise,
values of different kinds are unequal. -/
def pyEq : PyVal → PyVal → Bool
  | .obj _ p, .obj _ q => p = q
  | .pylist _ xs, .pylist _ ys => pyEqList xs ys
  | .pydict _ es, .pydict _ fs => es.length = fs.length && pyEqEntries es fs
  | _, _ => false

/-- Elementwise `==` on Python lists. -/
def pyEqList : List PyVal → List PyVal → Bool
  | [], [] => true
  | x :: xs, y :: ys => pyEq x y && pyEqList xs ys
  | _, _ => false

/-- Every entry of the first dict appears with a `==`-equal value in
the second. -/
def pyEqEntries : List (String × PyVal) → List (String × PyVal) → Bool
  | [], _ => true
  | (k, v) :: rest, fs =>
    (match lookupKey fs k with
     | some w => pyEq v w
     | none => false) && pyEqEntries rest fs

end

/-- A dict value (vs. a list or plain object). -/
def isDict : PyVal → Bool
  | .pydict _ _ => true
  | _ => false

/-! ## `dict_utils.deep_merge` (source lines 164-180) -/

/-- `dict_utils.deep_merge`: recursive dict merge; at a shared key
with two dicts it merges in place (preserving the target dict's
identity), otherwise `merge_dct`'s value overwrites. -/
def deep_merge : List (String × PyVal) → List (String × PyVal) → List (String × PyVal)
  | dct, [] => dct
  | dct, (k, mv) :: rest =>
    match lookupKey dct k, mv with
    | some (.pydict di des), .pydict _ mes =>
      deep_merge (setKey dct k (.pydict di (deep_merge des mes))) rest
    | _, _ => deep_merge (setKey dct k mv) rest


/-! ## `dict_utils.deep_merge_check` (source lines 63-102) -/

/-- `dict_utils.deep_merge_check`: recursive merge that refuses to
overwrite.  `.error ()` models the `ValueError` raise: at a shared
key whose two values are not both dicts, the merge raises unless the
values are the same object (`check_equality = false`) or `==`-equal
(`check_equality = true`); when the check passes, `merge_dct`'s value
is assigned. -/
def deep_merge_check : List (String × PyVal) → List (String × PyVal) → Bool →
    Except Unit (List (String × PyVal))
  | dct, [], _ => .ok dct
  | dct, (k, mv) :: rest, ce =>
    match lookupKey dct k, mv with
    | some (.pydict di des), .pydict _ mes => do
      let merged ← deep_merge_check des mes ce
      deep_merge_check (setKey dct k (.pydict di merged)) rest ce
    | some dv, _ =>
      if (if ce then pyEq dv mv else pyIs dv mv) then
        deep_merge_check (setKey dct k mv) rest ce
      else .error ()
    | none, _ => deep_merge_check (setKey dct k mv) rest ce


/-- The claim's error condition, written from the spec's words and
independently of `deep_merge_check`: descending through levels where
both sides hold dicts, some shared key holds a conflicting pair of
values — not the same object when `check_equality` is false, not
`==`-equal when it is true. -/
def specConflict (ce : Bool) : List (String × PyVal) → List (String × PyVal) → Bool
  | _, [] => false
  | dct, (k, mv) :: rest =>
    (match lookupKey dct k, mv with
     | some (.pydict _ des), .pydict _ mes => specConflict ce des mes
     | some dv, _ => !(if ce then pyEq dv mv else pyIs dv mv)
     | none, _ => false) || specConflict ce dct rest


/-! ## Well-formedness of Python dicts -/

mutual

/-- Every dict reachable from the value has unique keys. -/
def wfVal : PyVal → Bool
  | .obj _ _ => true
  | .pylist _ xs => wfItems xs
  | .pydict _ es => nodupKeys es && wfEntries es

/-- `wfVal` on every item of a list. -/
def wfItems : List PyVal → Bool
  | [] => true
  | x :: xs => wfVal x && wfItems xs

/-- `wfVal` on every value of an entry list. -/
def wfEntries : List (String × PyVal) → Bool
  | [] => true
  | (_, v) :: rest => wfVal v && wfEntries rest

end

/-- A well-formed top-level Python dict: unique keys at every level. -/
def wfDict (es : List (String × PyVal)) : Bool :=
  nodupKeys es && wfEntries es

/-! ## `dict_utils.deep_merge_multi_update` (source lines 125-148) -/

/-- `dict_utils.deep_merge_multi_update`: recursive merge that, when a
key already holds a (non-dict-vs-dict) value, keeps both values in a
list under the `_multi_update` key.  If the target value is already a
dict carrying `_multi_update`, the new value is appended to that list;
appending to a non-list raises, modelled by `.error ()`.  Dicts and
lists created here are fresh Python objects; no statement in this file
consults the identity of a created node, so they carry id 0. -/
def deep_merge_multi_update : List (String × PyVal) → List (String × PyVal) →
    Except Unit (List (String × PyVal))
  | dct, [] => .ok dct
  | dct, (k, mv) :: rest =>
    match lookupKey dct k, mv with
    | some (.pydict di des), .pydict _ mes => do
      let merged ← deep_merge_multi_update des mes
      deep_merge_multi_update (setKey dct k (.pydict di merged)) rest
    | some (.pydict di des), _ =>
      (match lookupKey des "_multi_update" with
       | some (.pylist li items) =>
         deep_merge_multi_update
           (setKey dct k
             (.pydict di (setKey des "_multi_update" (.pylist li (items ++ [mv]))))) rest
       | some _ => .error ()
       | none =>
         deep_merge_multi_update
           (setKey dct k
             (.pydict 0 [("_multi_update", .pylist 0 [.pydict di des, mv])])) rest)
    | some dv, _ =>
      deep_merge_multi_update
        (setKey dct k (.pydict 0 [("_multi_update", .pylist 0 [dv, mv])])) rest
    | none, _ => deep_merge_multi_update (setKey dct k mv) rest

/-! ## `dict_utils.remove_multi_update` (source lines 151-161) -/

/-- `dict_utils.remove_multi_update`: rebuilds the dict, replacing
every dict value that carries `_multi_update` by the first element of
that list and recursing into other dict values.  Indexing `[0]` into
an empty list or a non-list raises, modelled by `.error ()`. -/
def remove_multi_update : List (String × PyVal) → Except Unit (List (String × PyVal))
  | [] => .ok []
  | (k, v) :: rest =>
    match v with
    | .pydict _ es =>
      (match lookupKey es "_multi_update" with
       | some (.pylist _ (x :: _)) => do
         let r ← remove_multi_update rest
         .ok ((k, x) :: r)
       | some _ => .error ()
       | none => do
         let inner ← remove_multi_update es
         let r ← remove_multi_update rest
         .ok ((k, .pydict 0 inner) :: r))
    | _ => do
      let r ← remove_multi_update rest
      .ok ((k, v) :: r)

mutual

/-- The value holds no `_multi_update` key at any dict level (lists
are never descended into by the merge helpers). -/
def noMultiV : PyVal → Bool
  | .pydict _ es => noMultiE es
  | _ => true

/-- `noMultiV` on an entry list, and no entry named `_multi_update`. -/
def noMultiE : List (String × PyVal) → Bool
  | [] => true
  | (k, v) :: rest => !(k = "_multi_update") && noMultiV v && noMultiE rest

end

mutual

/-- Every dict value reachable through dict entries is either a
`_multi_update` wrapper with a nonempty list (so `[0]` succeeds) or a
plain dict of recoverable values: exactly the shapes on which
`remove_multi_update` cannot raise. -/
def recovV : PyVal → Bool
  | .pydict _ es =>
    (match lookupKey es "_multi_update" with
     | some (.pylist _ (_ :: _)) => true
     | some _ => false
     | none => recovE es)
  | _ => true

/-- `recovV` on every value of an entry list. -/
def recovE : List (String × PyVal) → Bool
  | [] => true
  | (_, v) :: rest => recovV v && recovE rest

end

/-! ## Step dependency graph

Modelled from the spec: `_StepGraph` (spec §4.3 DependencyGraph), whose
source (`vivarium/core/engine.py`) is not part of this tree; only its
tests are.  Step names are opaque identifiers, modelled as strings.
Nodes are kept in registration order. -/

/-- Modelled from the spec: the state of a `_StepGraph` — ordinary
nodes with their declared dependency names, in registration order,
plus the sequentially-primed nodes registered by `add_sequential`. -/
structure StepGraph where
  sequential : List String
  nodes : List (String × List String)
deriving Repr

/-- The empty dependency graph. -/
def StepGraph.empty : StepGraph :=
  ⟨[], []⟩

/-- Modelled from the spec: `add(name, dependencies)` declares or
updates a node and its predecessor names. -/
def StepGraph.add (g : StepGraph) (name : String) (deps : List String) : StepGraph :=
  { g with nodes := setKey g.nodes name deps }

/-- Modelled from the spec: `add_sequential(name)` declares a
dependency-free node that must occupy the earliest layer, ahead of
all other dependency-free nodes. -/
def StepGraph.add_sequential (g : StepGraph) (name : String) : StepGraph :=
  { g with sequential := g.sequential ++ [name] }

/-- One round of cascading: the nodes not yet removed that declare a
dependency on a removed node. -/
def cascadeOnce (nodes : List (String × List String)) (removed : List String) :
    List String :=
  (nodes.filter (fun nd =>
    !(removed.contains nd.1) && nd.2.any (fun d => removed.contains d))).map Prod.fst

/-- Iterate `cascadeOnce` to a fixpoint (the node count bounds the
number of useful rounds). -/
def cascadeAll (fuel : Nat) (nodes : List (String × List String))
    (removed : List String) : List String :=
  match fuel with
  | 0 => removed
  | fuel + 1 =>
    let more := cascadeOnce nodes removed
    if more.isEmpty then removed else cascadeAll fuel nodes (removed ++ more)

/-- Modelled from the spec: `remove(name)` deletes the node and
cascades — every node transitively depending on it is also removed. -/
def StepGraph.remove (g : StepGraph) (name : String) : StepGraph :=
  let removed := cascadeAll g.nodes.length g.nodes [name]
  { sequential := g.sequential.filter (fun s => !(removed.contains s)),
    nodes := g.nodes.filter (fun nd => !(removed.contains nd.1)) }

/-- Kahn layering: repeatedly emit the nodes whose declared
dependencies all lie in already-emitted layers; returns the layers and
the leftover (cyclic) nodes. -/
def kahnLayers (fuel : Nat) (done : List String)
    (remaining : List (String × List String)) :
    List (List String) × List (String × List String) :=
  match fuel with
  | 0 => ([], remaining)
  | fuel + 1 =>
    let ready := remaining.filter (fun nd => nd.2.all (fun d => done.contains d))
    if ready.isEmpty then ([], remaining)
    else
      let names := ready.map Prod.fst
      let next := kahnLayers fuel (done ++ names)
        (remaining.filter (fun nd => !(names.contains nd.1)))
      (names :: next.1, next.2)

/-- Modelled from the spec: `get_execution_layers()` — sequentially
primed nodes occupy the earliest layers, then layer `k` is the maximal
set of not-yet-emitted nodes whose declared dependencies all lie in
layers before `k`; a dependency cycle is a fatal configuration error,
modelled as `none`. -/
def StepGraph.get_execution_layers (g : StepGraph) : Option (List (List String)) :=
  let res := kahnLayers g.nodes.length g.sequential g.nodes
  if res.2.isEmpty then some (g.sequential.map (fun s => [s]) ++ res.1) else none

example :
    ((((StepGraph.empty.add "a" []).add "b" []).add "c" ["a", "b"]).add "d"
      ["c"]).get_execution_layers = some [["a", "b"], ["c"], ["d"]] := by decide

/-! ## Engine tick scheduler

Modelled from the spec: `Engine.run_for` (spec §4.4), whose source
(`vivarium/core/engine.py`) is not part of this tree; only its tests
are.  All simulated times in the verified scenarios are exact
multiples of 0.01 s, so time is measured in whole hundredths of a
simulated second (0.75 ↦ 75, 1.0 ↦ 100, 1.25 ↦ 125, 10.0 ↦ 1000);
the scheduler's arithmetic (sums, minima, comparisons) commutes with
this scaling, which keeps every clock value exact. -/

/-- Modelled from the spec: the Engine's time state — the monotonic
global clock and the per-process Front table of last-applied times
(spec §3 Front), in hundredths of a second. -/
structure EngineState where
  global_time : Int
  front : List (String × Int)
deriving Repr

/-- Front time of one process (Front entries are created at
registration, so the name is always present; absent names read 0). -/
def frontOf (st : EngineState) (n : String) : Int :=
  (lookupKey st.front n).getD 0

/-- Modelled from the spec: the timestep a unit is advanced by in one
tick — its declared timestep, shortened to `boundary - front` when
`force_complete` is set and the nominal step would overshoot the run
boundary. -/
def effStep (force : Bool) (boundary ts t : Int) : Int :=
  if force then min ts (boundary - t) else ts

/-- Modelled from the spec: `next_time`, the minimum over active
timestep-driven units of front time + (effective) timestep, clipped
to the run boundary. -/
def nextTime (procs : List (String × Int)) (boundary : Int) (force : Bool)
    (st : EngineState) : Int :=
  procs.foldl
    (fun acc p => min acc (frontOf st p.1 + effStep force boundary p.2 (frontOf st p.1)))
    boundary

/-- Modelled from the spec: one tick — every unit whose front plus
effective timestep equals `next_time` runs and has its front advanced
to `next_time`; the global clock advances to `next_time`.  Returns
the names of the units that ran, in registration order. -/
def tick (procs : List (String × Int)) (boundary : Int) (force : Bool)
    (st : EngineState) : List String × EngineState :=
  let nt := nextTime procs boundary force st
  ((procs.filter (fun p =>
      frontOf st p.1 + effStep force boundary p.2 (frontOf st p.1) = nt)).map Prod.fst,
   { global_time := nt,
     front := st.front.map (fun fe =>
       match lookupKey procs fe.1 with
       | some ts => if fe.2 + effStep force boundary ts fe.2 = nt then (fe.1, nt) else fe
       | none => fe) })

/-- Modelled from the spec: the tick loop of `run_for` — before each
tick all steps and derivers run in dependency-layer order (their names
are logged first), then the due processes run; the loop ends when the
global clock reaches the boundary.  Returns the execution log (unit
names in execution order) and the final state.  `fuel` bounds the
tick count; the loop exits on its own in every verified scenario. -/
def runTicks (stepNames : List String) (procs : List (String × Int))
    (boundary : Int) (force : Bool) (fuel : Nat) (st : EngineState) :
    List String × EngineState :=
  match fuel with
  | 0 => ([], st)
  | fuel + 1 =>
    if boundary ≤ st.global_time then ([], st)
    else
      let t := tick procs boundary force st
      let next := runTicks stepNames procs boundary force fuel t.2
      (stepNames ++ t.1 ++ next.1, next.2)

/-- Modelled from the spec: `run_for(interval, force_complete)` —
compute the run boundary as current global time + interval and tick
until the global clock reaches it. -/
def run_for (stepNames : List String) (procs : List (String × Int))
    (st : EngineState) (interval : Int) (force : Bool) :
    List String × EngineState :=
  runTicks stepNames procs (st.global_time + interval) force 1000 st

/-! ### The two-process `run_for` scenario (engine_tests.test_engine_run_for) -/

/-- The two timestep-driven processes of the scenario: declared
timesteps 0.75 and 1.25, in registration order. -/
def runForProcs : List (String × Int) :=
  [("process1", 75), ("process2", 125)]

/-- Initial engine state: global clock 0, both fronts 0. -/
def runForInit : EngineState :=
  ⟨0, [("process1", 0), ("process2", 0)]⟩

/-- State after `n` calls of `run_for(1.0)`; the call that reaches
total time 10.0 (the tenth) passes `force_complete=true`, as in the
test's driving loop. -/
def afterCalls : Nat → EngineState
  | 0 => runForInit
  | n + 1 => (run_for [] runForProcs (afterCalls n) 100 (n + 1 == 10)).2

example : (afterCalls 1).global_time = 100 ∧ frontOf (afterCalls 1) "process1" = 75 ∧
    frontOf (afterCalls 1) "process2" = 0 := by decide
example : (afterCalls 10).global_time = 1000 ∧
    frontOf (afterCalls 10) "process1" = 1000 ∧
    frontOf (afterCalls 10) "process2" = 1000 := by decide
example : (afterCalls 9).global_time = 900 ∧
    frontOf (afterCalls 9) "process1" = 900 ∧
    frontOf (afterCalls 9) "process2" = 875 := by decide

/-! ### The runtime-order scenario (engine_tests.test_runtime_order) -/

/-- The scenario's step dependency graph: the deriver is sequentially
primed; steps s1 (no dependencies), s2 and s3 (both depending on s1)
are registered in order.  Names are the units' `name` parameters, as
logged by the test. -/
def runtimeOrderGraph : StepGraph :=
  (((StepGraph.empty.add_sequential "deriver").add "step1" []).add
    "step2" ["step1"]).add "step3" ["step1"]

/-- The per-tick step execution order: dependency layers flattened in
order, registration order within a layer (spec §5 ordering
guarantees). -/
def runtimeOrderStepNames : List String :=
  (runtimeOrderGraph.get_execution_layers.getD []).flatten

/-- The scenario's two processes: declared timesteps 1 and 2 (in
hundredths: 100 and 200), in registration order. -/
def runtimeOrderProcs : List (String × Int) :=
  [("process1", 100), ("process2", 200)]

/-- The execution log of `update(4)` on the runtime-order composite:
unit names in the order the engine ran them. -/
def runtimeOrderLog : List String :=
  (run_for runtimeOrderStepNames runtimeOrderProcs
    ⟨0, [("process1", 0), ("process2", 0)]⟩ 400 false).1

example : runtimeOrderStepNames = ["deriver", "step1", "step2", "step3"] := by decide
example : runtimeOrderLog =
    ["deriver", "step1", "step2", "step3", "process1",
     "deriver", "step1", "step2", "step3", "process1", "process2",
     "deriver", "step1", "step2", "step3", "process1",
     "deriver", "step1", "step2", "step3", "process1", "process2"] := by decide

/-! ## State tree (Store)

Modelled from the spec: the StateTree / Store (spec §3 data model,
§4.1 contract), whose source (`vivarium/core/store.py`) is not part of
this tree; only its tests are.  A node is a leaf (holding a value with
its schema-declared updater and divider names) or a branch of named
children; units and non-numeric leaf payloads are outside the claims
verified here, so leaf values are integers. -/

/-- Modelled from the spec: a node of the state tree — a Leaf holds a
value plus schema attributes (updater name, divider strategy); a
Branch holds a mapping of child name to node. -/
inductive StoreNode : Type where
  | leaf (value : Int) (updater : String) (divider : String) : StoreNode
  | branch (children : List (String × StoreNode)) : StoreNode
deriving Repr

/-- Modelled from the spec: an Update — a value tree mirroring the
store's shape; leaves carry plain merge payloads.  The empty mapping
`.upd []` is Python's `{}`. -/
inductive UpdateTree : Type where
  | value (v : Int) : UpdateTree
  | upd (entries : List (String × UpdateTree)) : UpdateTree
deriving Repr

/-- The value tree of a store, as returned by `get_value()`: leaves
stripped of schema, branches as dicts. -/
inductive ValueTree : Type where
  | value (v : Int) : ValueTree
  | dict (entries : List (String × ValueTree)) : ValueTree
deriving Repr

/-- Modelled from the spec: the name-keyed updater registry ("set",
"accumulate", ...); `accumulate` is the default merge strategy. -/
def applyUpdater (updater : String) (old v : Int) : Int :=
  if updater = "set" then v else old + v

mutual

/-- Modelled from the spec: `apply_update(update)` recursively merges
the update into the tree: a leaf payload is merged per the leaf's
declared updater; at a branch, each child named by the update is
updated recursively and unnamed children are untouched. -/
def apply_update : StoreNode → UpdateTree → StoreNode
  | .leaf w u d, .value v => .leaf (applyUpdater u w v) u d
  | .branch cs, .upd us => .branch (applyUpdateChildren cs us)
  | n, _ => n

/-- `apply_update` on each named child of a branch. -/
def applyUpdateChildren :
    List (String × StoreNode) → List (String × UpdateTree) → List (String × StoreNode)
  | [], _ => []
  | (k, c) :: rest, us =>
    (match lookupKey us k with
     | some u => (k, apply_update c u)
     | none => (k, c)) :: applyUpdateChildren rest us

end

mutual

/-- `get_value()`: the pure value projection of a store. -/
def get_value : StoreNode → ValueTree
  | .leaf v _ _ => .value v
  | .branch cs => .dict (getValueChildren cs)

/-- `get_value` of each child of a branch. -/
def getValueChildren : List (String × StoreNode) → List (String × ValueTree)
  | [] => []
  | (k, c) :: rest => (k, get_value c) :: getValueChildren rest

end

/-- Modelled from the spec: the per-leaf divider registry — the
default divider duplicates the value unchanged into both daughters;
the "split" divider splits counts evenly, remainder to the first
daughter. -/
def applyDivider (divider : String) (v : Int) : Int × Int :=
  if divider = "split" then ((v + 1) / 2, v / 2) else (v, v)

mutual

/-- Modelled from the spec: the two daughter sub-trees produced from a
mother sub-tree by `divide` — every leaf is split per its declared
divider. -/
def divideNode : StoreNode → StoreNode × StoreNode
  | .leaf v u d =>
    let p := applyDivider d v
    (.leaf p.1 u d, .leaf p.2 u d)
  | .branch cs =>
    let p := divideChildren cs
    (.branch p.1, .branch p.2)

/-- `divideNode` on each child of a branch. -/
def divideChildren :
    List (String × StoreNode) → List (String × StoreNode) × List (String × StoreNode)
  | [] => ([], [])
  | (k, c) :: rest =>
    let p := divideNode c
    let q := divideChildren rest
    ((k, p.1) :: q.1, (k, p.2) :: q.2)

end

/-- Modelled from the spec: `divide(mother, daughters)` on a branch's
children — produces the two full daughter sub-trees from the mother
sub-tree and deletes the mother; a missing mother is an error
(`none`). -/
def Store.divide (cs : List (String × StoreNode)) (mother d1 d2 : String) :
    Option (List (String × StoreNode)) :=
  match lookupKey cs mother with
  | none => none
  | some m =>
    let p := divideNode m
    some ((cs.filter (fun c => !(c.1 = mother))) ++ [(d1, p.1), (d2, p.2)])

/-- Key membership in a `get_value()` dict. -/
def hasKey : ValueTree → String → Bool
  | .dict es, k => !(lookupKey es k).isNone
  | .value _, _ => false

/-! ## Helper lemmas on association lists -/

theorem lookupKey_append {α : Type} (l1 l2 : List (String × α)) (k : String) :
    lookupKey (l1 ++ l2) k =
      match lookupKey l1 k with
      | some v => some v
      | none => lookupKey l2 k := by
  induction l1 with
  | nil => rfl
  | cons p rest ih =>
    rcases p with ⟨k1, v1⟩
    by_cases h : k1 = k <;> simp [lookupKey, h, ih]

theorem lookupKey_filter_self {α : Type} (l : List (String × α)) (k : String) :
    lookupKey (l.filter (fun c => !(c.1 = k))) k = none := by
  induction l with
  | nil => rfl
  | cons p rest ih =>
    rcases p with ⟨k1, v1⟩
    by_cases h : k1 = k <;> simp [lookupKey, h, ih]

theorem lookupKey_filter_ne {α : Type} (l : List (String × α)) (k k2 : String)
    (h : k2 ≠ k) :
    lookupKey (l.filter (fun c => !(c.1 = k))) k2 = lookupKey l k2 := by
  induction l with
  | nil => rfl
  | cons p rest ih =>
    rcases p with ⟨k1, v1⟩
    by_cases h1 : k1 = k
    · subst h1
      simp [lookupKey, Ne.symm h, ih]
    · by_cases h2 : k1 = k2 <;> simp [lookupKey, h, h1, h2, ih]

theorem lookupKey_setKey_self {α : Type} (l : List (String × α)) (k : String) (v : α) :
    lookupKey (setKey l k v) k = some v := by
  induction l with
  | nil => simp [setKey, lookupKey]
  | cons p rest ih =>
    rcases p with ⟨k1, v1⟩
    by_cases h : k1 = k <;> simp [setKey, lookupKey, h, ih]

theorem lookupKey_setKey_ne {α : Type} (l : List (String × α)) (k k2 : String)
    (v : α) (h : k2 ≠ k) :
    lookupKey (setKey l k v) k2 = lookupKey l k2 := by
  induction l with
  | nil => simp [setKey, lookupKey, Ne.symm h]
  | cons p rest ih =>
    rcases p with ⟨k1, v1⟩
    by_cases h1 : k1 = k
    · subst h1
      simp [setKey, lookupKey, Ne.symm h]
    · by_cases h2 : k1 = k2 <;> simp [setKey, lookupKey, h, h1, h2, ih]

/-! ## Claim theorems: step graph (C3, C4, C5) -/

/-- C3: for the graph with a and b dependency-free, c depending on a
and b, and d depending on c, `get_execution_layers` returns exactly
three layers — {a, b} (membership order irrelevant), then {c}, then
{d}. -/
theorem c3_execution_layers :
    ∃ first : List String,
      ((((StepGraph.empty.add "a" []).add "b" []).add "c" ["a", "b"]).add "d"
        ["c"]).get_execution_layers = some [first, ["c"], ["d"]] ∧
      first.Perm ["a", "b"] :=
  ⟨["a", "b"], by decide, by decide⟩

/-- C4: for the graph where b depends on a and c depends on b,
`remove(a)` cascades to b and c, so `get_execution_layers` afterwards
yields no layers at all. -/
theorem c4_removal_cascades :
    ((((StepGraph.empty.add "a" []).add "b" ["a"]).add "c" ["b"]).remove
      "a").get_execution_layers = some [] := by
  decide

theorem foldl_add_sequential_eq (ops : List (String × List String)) (g : StepGraph) :
    (ops.foldl (fun h p => h.add p.1 p.2) g).sequential = g.sequential := by
  induction ops generalizing g with
  | nil => rfl
  | cons p rest ih =>
    rw [List.foldl_cons, ih]
    rfl

/-- C5: in every graph built by `add` declarations, a node then
declared via `add_sequential` occupies the earliest execution layer,
alone (hence ahead of every dependency-free node declared via `add`,
including ones added before it); in particular after `add(a, [])`,
`add(b, [])`, `add_sequential(c)` the layers are [{c}, {a, b}]. -/
theorem c5_sequential_first (ops : List (String × List String)) (c : String)
    (ls : List (List String))
    (h : ((ops.foldl (fun g p => g.add p.1 p.2) StepGraph.empty).add_sequential
      c).get_execution_layers = some ls) :
    ls.head? = some [c] ∧
    (((StepGraph.empty.add "a" []).add "b" []).add_sequential
      "c").get_execution_layers = some [["c"], ["a", "b"]] := by
  refine ⟨?_, by decide⟩
  unfold StepGraph.get_execution_layers at h
  have hseq : ((ops.foldl (fun g p => g.add p.1 p.2)
      StepGraph.empty).add_sequential c).sequential = [c] := by
    simp [StepGraph.add_sequential, foldl_add_sequential_eq, StepGraph.empty]
  rw [hseq] at h
  by_cases hc : (kahnLayers ((ops.foldl (fun g p => g.add p.1 p.2)
      StepGraph.empty).add_sequential c).nodes.length [c]
      ((ops.foldl (fun g p => g.add p.1 p.2)
        StepGraph.empty).add_sequential c).nodes).2.isEmpty
  · simp only [hc, if_true] at h
    have h2 := Option.some.inj h
    rw [← h2]
    rfl
  · simp [hc] at h

/-- Witness for C5 at the concrete graph of the claim's example. -/
theorem c5_sequential_first_witness :
    ([["c"], ["a", "b"]] : List (List String)).head? = some ["c"] ∧
    (((StepGraph.empty.add "a" []).add "b" []).add_sequential
      "c").get_execution_layers = some [["c"], ["a", "b"]] :=
  c5_sequential_first [("a", []), ("b", [])] "c" [["c"], ["a", "b"]] (by decide)

/-! ## Claim theorems: engine time stepping (C1, C2) -/

/-- C1: driving the two-process engine (timesteps 0.75 and 1.25) by
repeated `run_for(1.0)` calls from global time 0: after each of the
first nine calls the global clock equals the number of calls times
1.0 and each front equals the largest integer multiple of its own
timestep that is at most the global clock; the tenth call, made with
`force_complete`, reaches global time 10.0 with both fronts exactly
10.0.  (Times in hundredths: 1.0 ↦ 100, 0.75 ↦ 75, 1.25 ↦ 125.) -/
theorem c1_run_for_fronts :
    (∀ n : Fin 9,
      (afterCalls (n.1 + 1)).global_time = 100 * ((n.1 : Int) + 1) ∧
      frontOf (afterCalls (n.1 + 1)) "process1" =
        100 * ((n.1 : Int) + 1) / 75 * 75 ∧
      frontOf (afterCalls (n.1 + 1)) "process2" =
        100 * ((n.1 : Int) + 1) / 125 * 125) ∧
    (afterCalls 10).global_time = 1000 ∧
    frontOf (afterCalls 10) "process1" = 1000 ∧
    frontOf (afterCalls 10) "process2" = 1000 := by
  decide

/-- C2: in the runtime-order composite (deriver, steps s1 ← {s2, s3},
processes p1 and p2 with timesteps 1 and 2), the step graph resolves
to the layers [deriver], [step1], [step2, step3], and the execution
log of `update(4)` runs, in every tick, the deriver, then step1, then
step2 and step3, before the due processes in registration order. -/
theorem c2_runtime_order :
    runtimeOrderGraph.get_execution_layers =
      some [["deriver"], ["step1"], ["step2", "step3"]] ∧
    runtimeOrderLog =
      ["deriver", "step1", "step2", "step3", "process1",
       "deriver", "step1", "step2", "step3", "process1", "process2",
       "deriver", "step1", "step2", "step3", "process1",
       "deriver", "step1", "step2", "step3", "process1", "process2"] := by
  decide

/-! ## Claim theorems: state tree (C6, C7) -/

theorem applyUpdateChildren_nil (cs : List (String × StoreNode)) :
    applyUpdateChildren cs [] = cs := by
  induction cs with
  | nil => rfl
  | cons p rest ih => simp [applyUpdateChildren, lookupKey, ih]

/-- C6: applying the empty update `{}` to any store is the identity on
the observable state: `get_value()` is unchanged. -/
theorem c6_apply_update_empty (s : StoreNode) :
    get_value (apply_update s (.upd [])) = get_value s := by
  cases s with
  | leaf v u d => rfl
  | branch cs => simp [apply_update, applyUpdateChildren_nil]

theorem lookupKey_getValueChildren (cs : List (String × StoreNode)) (k : String) :
    lookupKey (getValueChildren cs) k = (lookupKey cs k).map get_value := by
  induction cs with
  | nil => rfl
  | cons p rest ih =>
    rcases p with ⟨k1, c⟩
    by_cases h : k1 = k <;> simp [getValueChildren, lookupKey, h, ih]

/-- C7: dividing a mother child into two fresh named daughters
produces both full daughter sub-trees under the branch — each leaf of
the mother split per its declared divider — and deletes the mother:
afterwards `get_value()` contains both daughter keys and no longer
contains the mother key. -/
theorem c7_divide_store (cs : List (String × StoreNode)) (mother d1 d2 : String)
    (m : StoreNode) (hm : lookupKey cs mother = some m)
    (hf1 : lookupKey cs d1 = none) (hf2 : lookupKey cs d2 = none)
    (hd : d1 ≠ d2) :
    ∃ r, Store.divide cs mother d1 d2 = some r ∧
      lookupKey r d1 = some (divideNode m).1 ∧
      lookupKey r d2 = some (divideNode m).2 ∧
      hasKey (get_value (.branch r)) d1 = true ∧
      hasKey (get_value (.branch r)) d2 = true ∧
      hasKey (get_value (.branch r)) mother = false := by
  have h1 : d1 ≠ mother := by
    intro h
    rw [h, hm] at hf1
    exact Option.noConfusion hf1
  have h2 : d2 ≠ mother := by
    intro h
    rw [h, hm] at hf2
    exact Option.noConfusion hf2
  refine ⟨(cs.filter (fun c => !(c.1 = mother))) ++
    [(d1, (divideNode m).1), (d2, (divideNode m).2)], ?_, ?_, ?_, ?_, ?_, ?_⟩
  · simp [Store.divide, hm]
  · rw [lookupKey_append, lookupKey_filter_ne cs mother d1 h1, hf1]
    simp [lookupKey]
  · rw [lookupKey_append, lookupKey_filter_ne cs mother d2 h2, hf2]
    simp [lookupKey, hd]
  · rw [get_value, hasKey, lookupKey_getValueChildren, lookupKey_append,
      lookupKey_filter_ne cs mother d1 h1, hf1]
    simp [lookupKey]
  · rw [get_value, hasKey, lookupKey_getValueChildren, lookupKey_append,
      lookupKey_filter_ne cs mother d2 h2, hf2]
    simp [lookupKey, hd]
  · rw [get_value, hasKey, lookupKey_getValueChildren, lookupKey_append,
      lookupKey_filter_self]
    simp [lookupKey, h1, h2]

/-- Witness for C7 at the store of `store_api.test_divide_store`:
children `process1` and `store1` (holding leaf `X`), divided into
daughters `store2` and `store3`. -/
theorem c7_divide_store_witness :
    ∃ r, Store.divide
      [("process1", .leaf 0 "accumulate" "duplicate"),
       ("store1", .branch [("X", .leaf 0 "accumulate" "duplicate")])]
      "store1" "store2" "store3" = some r ∧
      lookupKey r "store2" =
        some (divideNode (.branch [("X", .leaf 0 "accumulate" "duplicate")])).1 ∧
      lookupKey r "store3" =
        some (divideNode (.branch [("X", .leaf 0 "accumulate" "duplicate")])).2 ∧
      hasKey (get_value (.branch r)) "store2" = true ∧
      hasKey (get_value (.branch r)) "store3" = true ∧
      hasKey (get_value (.branch r)) "store1" = false :=
  c7_divide_store _ "store1" "store2" "store3" _ rfl rfl rfl (by decide)

/-! ## Step equations for the merge functions (C8) -/

theorem not_both_dict {dv mv : PyVal}
    (h : ∀ (di : Nat) (des : List (String × PyVal)) (mi : Nat)
      (mes : List (String × PyVal)),
      dv = .pydict di des → mv = .pydict mi mes → False) :
    isDict dv = false ∨ isDict mv = false := by
  rcases dv with _ | _ | ⟨di, des⟩ <;> rcases mv with _ | _ | ⟨mi, mes⟩ <;>
    simp [isDict]
  exact h _ _ _ _ rfl rfl

theorem dm_step_dd (dct : List (String × PyVal)) (k : String) (di : Nat)
    (des : List (String × PyVal)) (mi : Nat) (mes rest : List (String × PyVal))
    (hdv : lookupKey dct k = some (.pydict di des)) :
    deep_merge dct ((k, .pydict mi mes) :: rest) =
      deep_merge (setKey dct k (.pydict di (deep_merge des mes))) rest :=
  deep_merge.eq_2 dct k rest di des mi mes hdv

theorem dm_step_nd (dct : List (String × PyVal)) (k : String) (mv : PyVal)
    (rest : List (String × PyVal)) (dv : PyVal)
    (hdv : lookupKey dct k = some dv)
    (hnd : isDict dv = false ∨ isDict mv = false) :
    deep_merge dct ((k, mv) :: rest) = deep_merge (setKey dct k mv) rest := by
  rcases dv with ⟨i, p⟩ | ⟨i, xs⟩ | ⟨i, es⟩ <;>
    rcases mv with ⟨j, q⟩ | ⟨j, ys⟩ | ⟨j, fs⟩ <;>
      simp [deep_merge, hdv, isDict] at hnd ⊢

theorem dm_step_none (dct : List (String × PyVal)) (k : String) (mv : PyVal)
    (rest : List (String × PyVal)) (hdv : lookupKey dct k = none) :
    deep_merge dct ((k, mv) :: rest) = deep_merge (setKey dct k mv) rest := by
  rcases mv with ⟨j, q⟩ | ⟨j, ys⟩ | ⟨j, fs⟩ <;> simp [deep_merge, hdv]

theorem dmc_step_dd (dct : List (String × PyVal)) (k : String) (di : Nat)
    (des : List (String × PyVal)) (mi : Nat) (mes rest : List (String × PyVal))
    (ce : Bool) (hdv : lookupKey dct k = some (.pydict di des)) :
    deep_merge_check dct ((k, .pydict mi mes) :: rest) ce =
      match deep_merge_check des mes ce with
      | .ok merged => deep_merge_check (setKey dct k (.pydict di merged)) rest ce
      | .error e => .error e := by
  rw [deep_merge_check.eq_2 dct ce k rest di des mi mes hdv]
  cases deep_merge_check des mes ce <;> rfl

theorem dmc_step_pass (dct : List (String × PyVal)) (k : String) (mv : PyVal)
    (rest : List (String × PyVal)) (ce : Bool) (dv : PyVal)
    (hdv : lookupKey dct k = some dv)
    (hnd : isDict dv = false ∨ isDict mv = false)
    (hc : (if ce then pyEq dv mv else pyIs dv mv) = true) :
    deep_merge_check dct ((k, mv) :: rest) ce =
      deep_merge_check (setKey dct k mv) rest ce := by
  rcases dv with ⟨i, p⟩ | ⟨i, xs⟩ | ⟨i, es⟩ <;>
    rcases mv with ⟨j, q⟩ | ⟨j, ys⟩ | ⟨j, fs⟩ <;>
      simp [deep_merge_check, hdv, isDict, hc] at hnd ⊢

theorem dmc_step_fail (dct : List (String × PyVal)) (k : String) (mv : PyVal)
    (rest : List (String × PyVal)) (ce : Bool) (dv : PyVal)
    (hdv : lookupKey dct k = some dv)
    (hnd : isDict dv = false ∨ isDict mv = false)
    (hc : (if ce then pyEq dv mv else pyIs dv mv) = false) :
    deep_merge_check dct ((k, mv) :: rest) ce = .error () := by
  rcases dv with ⟨i, p⟩ | ⟨i, xs⟩ | ⟨i, es⟩ <;>
    rcases mv with ⟨j, q⟩ | ⟨j, ys⟩ | ⟨j, fs⟩ <;>
      simp [deep_merge_check, hdv, isDict, hc] at hnd ⊢

theorem dmc_step_none (dct : List (String × PyVal)) (k : String) (mv : PyVal)
    (rest : List (String × PyVal)) (ce : Bool) (hdv : lookupKey dct k = none) :
    deep_merge_check dct ((k, mv) :: rest) ce =
      deep_merge_check (setKey dct k mv) rest ce := by
  rcases mv with ⟨j, q⟩ | ⟨j, ys⟩ | ⟨j, fs⟩ <;> simp [deep_merge_check, hdv]

theorem sc_step_dd (ce : Bool) (dct : List (String × PyVal)) (k : String)
    (di : Nat) (des : List (String × PyVal)) (mi : Nat)
    (mes rest : List (String × PyVal))
    (hdv : lookupKey dct k = some (.pydict di des)) :
    specConflict ce dct ((k, .pydict mi mes) :: rest) =
      (specConflict ce des mes || specConflict ce dct rest) :=
  specConflict.eq_2 ce dct k rest des mi mes di hdv

theorem sc_step_nd (ce : Bool) (dct : List (String × PyVal)) (k : String)
    (mv : PyVal) (rest : List (String × PyVal)) (dv : PyVal)
    (hdv : lookupKey dct k = some dv)
    (hnd : isDict dv = false ∨ isDict mv = false) :
    specConflict ce dct ((k, mv) :: rest) =
      (!(if ce then pyEq dv mv else pyIs dv mv) || specConflict ce dct rest) := by
  rcases dv with ⟨i, p⟩ | ⟨i, xs⟩ | ⟨i, es⟩ <;>
    rcases mv with ⟨j, q⟩ | ⟨j, ys⟩ | ⟨j, fs⟩ <;>
      simp [specConflict, hdv, isDict] at hnd ⊢

theorem sc_step_none (ce : Bool) (dct : List (String × PyVal)) (k : String)
    (mv : PyVal) (rest : List (String × PyVal))
    (hdv : lookupKey dct k = none) :
    specConflict ce dct ((k, mv) :: rest) = specConflict ce dct rest := by
  rcases mv with ⟨j, q⟩ | ⟨j, ys⟩ | ⟨j, fs⟩ <;> simp [specConflict, hdv]

theorem specConflict_congr (ce : Bool) (rest : List (String × PyVal))
    (d1 d2 : List (String × PyVal))
    (h : ∀ k, k ∈ keysOf rest → lookupKey d1 k = lookupKey d2 k) :
    specConflict ce d1 rest = specConflict ce d2 rest := by
  induction rest with
  | nil => rw [specConflict, specConflict]
  | cons p rest2 ih =>
    rcases p with ⟨k0, mv0⟩
    have hk : lookupKey d1 k0 = lookupKey d2 k0 := h k0 (by simp [keysOf])
    have ih2 := ih (fun k hk2 => h k (by simp [keysOf] at hk2 ⊢; exact Or.inr hk2))
    cases hl : lookupKey d2 k0 with
    | none =>
      rw [sc_step_none ce d1 k0 mv0 rest2 (by rw [hk, hl]),
        sc_step_none ce d2 k0 mv0 rest2 hl, ih2]
    | some dv =>
      have hk1 : lookupKey d1 k0 = some dv := by rw [hk, hl]
      rcases dv with ⟨i, p2⟩ | ⟨i, xs⟩ | ⟨i, es⟩ <;>
        rcases mv0 with ⟨j, q⟩ | ⟨j, ys⟩ | ⟨j, fs⟩ <;>
        first
          | rw [sc_step_dd ce d1 k0 i es j fs rest2 hk1,
              sc_step_dd ce d2 k0 i es j fs rest2 hl, ih2]
          | rw [sc_step_nd ce d1 k0 _ rest2 _ hk1 (by simp [isDict]),
              sc_step_nd ce d2 k0 _ rest2 _ hl (by simp [isDict]), ih2]

theorem nodupKeys_cons_elim {α : Type} {k : String} {v : α}
    {rest : List (String × α)} (h : nodupKeys ((k, v) :: rest) = true) :
    (rest.any (fun kv => kv.1 = k)) = false ∧ nodupKeys rest = true := by
  rw [nodupKeys, Bool.and_eq_true, Bool.not_eq_true'] at h
  exact h

theorem ne_of_any_keys_false {α : Type} {rest : List (String × α)} {k k2 : String}
    (h : (rest.any (fun kv => kv.1 = k)) = false) (hmem : k2 ∈ keysOf rest) :
    k2 ≠ k := by
  rw [List.any_eq_false] at h
  rw [keysOf, List.mem_map] at hmem
  obtain ⟨kv, hkv, rfl⟩ := hmem
  simpa using h kv hkv

theorem wfDict_cons_elim {k : String} {v : PyVal} {rest : List (String × PyVal)}
    (h : wfDict ((k, v) :: rest) = true) :
    (rest.any (fun kv => kv.1 = k)) = false ∧ wfVal v = true ∧
      wfDict rest = true := by
  rw [wfDict, Bool.and_eq_true] at h
  obtain ⟨hn, he⟩ := h
  obtain ⟨hn1, hn2⟩ := nodupKeys_cons_elim hn
  rw [wfEntries, Bool.and_eq_true] at he
  exact ⟨hn1, he.1, by rw [wfDict, Bool.and_eq_true]; exact ⟨hn2, he.2⟩⟩

theorem wfVal_pydict_elim {i : Nat} {es : List (String × PyVal)}
    (h : wfVal (.pydict i es) = true) : wfDict es = true := by
  rw [wfVal] at h
  rw [wfDict]
  exact h

/-- On success, `deep_merge_check` returns exactly the `deep_merge`
result (same recursion, checks passed). -/
theorem dmc_ok_deep_merge (dct mdct : List (String × PyVal)) (ce : Bool) :
    ∀ r, deep_merge_check dct mdct ce = .ok r → r = deep_merge dct mdct := by
  induction dct, mdct, ce using deep_merge_check.induct with
  | case1 dct ce =>
    intro r hr
    rw [deep_merge_check] at hr
    rw [deep_merge, ← Except.ok.inj hr]
  | case2 dct k rest ce di des mi mes h ih1 ih2 =>
    intro r hr
    rw [dmc_step_dd dct k di des mi mes rest ce h] at hr
    cases hmm : deep_merge_check des mes ce with
    | error e =>
      rw [hmm] at hr
      exact absurd hr (by simp)
    | ok merged =>
      rw [hmm] at hr
      rw [dm_step_dd dct k di des mi mes rest h, ← ih1 merged hmm]
      exact ih2 merged r hr
  | case3 dct k mv rest ce dv h hc hnb ih =>
    intro r hr
    have hnd := not_both_dict (fun di des mi mes h1 h2 => hnb di des mi mes h1 h2)
    have hc2 : (if ce then pyEq dv mv else pyIs dv mv) = true := hc
    rw [dmc_step_pass dct k mv rest ce dv h hnd hc2] at hr
    rw [dm_step_nd dct k mv rest dv h hnd]
    exact ih r hr
  | case4 dct k mv rest ce dv h hc hnb =>
    intro r hr
    have hnd := not_both_dict (fun di des mi mes h1 h2 => hnb di des mi mes h1 h2)
    have hc2 : (if ce then pyEq dv mv else pyIs dv mv) = false :=
      Bool.eq_false_iff.mpr hc
    rw [dmc_step_fail dct k mv rest ce dv h hnd hc2] at hr
    exact absurd hr (by simp)
  | case5 dct k mv rest ce h ih =>
    intro r hr
    rw [dmc_step_none dct k mv rest ce h] at hr
    rw [dm_step_none dct k mv rest h]
    exact ih r hr

/-- `deep_merge_check` raises exactly when the spec's conflict
condition holds (merge side a well-formed dict). -/
theorem dmc_error_iff_conflict (dct mdct : List (String × PyVal)) (ce : Bool) :
    wfDict mdct = true →
      ((deep_merge_check dct mdct ce = .error ()) ↔
        specConflict ce dct mdct = true) := by
  induction dct, mdct, ce using deep_merge_check.induct with
  | case1 dct ce =>
    intro _
    rw [deep_merge_check, specConflict]
    simp
  | case2 dct k rest ce di des mi mes h ih1 ih2 =>
    intro hwf
    obtain ⟨hany, hv, hrest⟩ := wfDict_cons_elim hwf
    have hmes := wfVal_pydict_elim hv
    rw [dmc_step_dd dct k di des mi mes rest ce h,
      sc_step_dd ce dct k di des mi mes rest h]
    cases hmm : deep_merge_check des mes ce with
    | error e =>
      cases e
      have hin : specConflict ce des mes = true := (ih1 hmes).mp hmm
      simp [hin]
    | ok merged =>
      have hin : specConflict ce des mes = false := by
        cases hsc : specConflict ce des mes with
        | false => rfl
        | true =>
          rw [(ih1 hmes).mpr hsc] at hmm
          exact absurd hmm (by simp)
      have hcongr : specConflict ce (setKey dct k (.pydict di merged)) rest =
          specConflict ce dct rest :=
        specConflict_congr ce rest _ dct (fun k2 hk2 =>
          lookupKey_setKey_ne dct k k2 _ (ne_of_any_keys_false hany hk2))
      rw [hin, ← hcongr]
      simpa using ih2 merged hrest
  | case3 dct k mv rest ce dv h hc hnb ih =>
    intro hwf
    obtain ⟨hany, _, hrest⟩ := wfDict_cons_elim hwf
    have hnd := not_both_dict (fun di des mi mes h1 h2 => hnb di des mi mes h1 h2)
    have hc2 : (if ce then pyEq dv mv else pyIs dv mv) = true := hc
    have hcongr : specConflict ce (setKey dct k mv) rest =
        specConflict ce dct rest :=
      specConflict_congr ce rest _ dct (fun k2 hk2 =>
        lookupKey_setKey_ne dct k k2 _ (ne_of_any_keys_false hany hk2))
    rw [dmc_step_pass dct k mv rest ce dv h hnd hc2,
      sc_step_nd ce dct k mv rest dv h hnd, hc2, ← hcongr]
    simpa using ih hrest
  | case4 dct k mv rest ce dv h hc hnb =>
    intro _
    have hnd := not_both_dict (fun di des mi mes h1 h2 => hnb di des mi mes h1 h2)
    have hc2 : (if ce then pyEq dv mv else pyIs dv mv) = false :=
      Bool.eq_false_iff.mpr hc
    rw [dmc_step_fail dct k mv rest ce dv h hnd hc2,
      sc_step_nd ce dct k mv rest dv h hnd, hc2]
    simp
  | case5 dct k mv rest ce h ih =>
    intro hwf
    obtain ⟨hany, _, hrest⟩ := wfDict_cons_elim hwf
    have hcongr : specConflict ce (setKey dct k mv) rest =
        specConflict ce dct rest :=
      specConflict_congr ce rest _ dct (fun k2 hk2 =>
        lookupKey_setKey_ne dct k k2 _ (ne_of_any_keys_false hany hk2))
    rw [dmc_step_none dct k mv rest ce h, sc_step_none ce dct k mv rest h,
      ← hcongr]
    exact ih hrest

/-- C8: for nested dicts (well-formed on the merge side),
`deep_merge_check(dct, merge_dct, check_equality)` raises exactly when,
descending through levels where both sides hold dicts, some shared key
holds a conflicting pair of values — conflicting meaning not the
identical object when `check_equality` is false, and not `==`-equal
when it is true; when no such conflict exists it merges `merge_dct`
into `dct` (the `deep_merge` result) and returns it. -/
theorem c8_deep_merge_check_conflict (dct mdct : List (String × PyVal))
    (ce : Bool) (hwf : wfDict mdct = true) :
    ((deep_merge_check dct mdct ce = .error ()) ↔
      specConflict ce dct mdct = true) ∧
    ∀ r, deep_merge_check dct mdct ce = .ok r → r = deep_merge dct mdct :=
  ⟨dmc_error_iff_conflict dct mdct ce hwf, dmc_ok_deep_merge dct mdct ce⟩

/-- Witness for C8: the same object (id 0) declared at `x` on both
sides is unified silently, key `y` is new; no conflict and the merge
succeeds. -/
theorem c8_deep_merge_check_conflict_witness :
    ((deep_merge_check [("x", .obj 0 1)] [("x", .obj 0 1), ("y", .obj 1 2)]
        false = .error ()) ↔
      specConflict false [("x", .obj 0 1)] [("x", .obj 0 1), ("y", .obj 1 2)] =
        true) ∧
    ∀ r, deep_merge_check [("x", .obj 0 1)] [("x", .obj 0 1), ("y", .obj 1 2)]
        false = .ok r →
      r = deep_merge [("x", .obj 0 1)] [("x", .obj 0 1), ("y", .obj 1 2)] :=
  c8_deep_merge_check_conflict [("x", .obj 0 1)]
    [("x", .obj 0 1), ("y", .obj 1 2)] false (by decide)

/-! ## Helper lemmas for the multi-update round trip (C10) -/

theorem lookupKey_none_iff {α : Type} (l : List (String × α)) (k : String) :
    lookupKey l k = none ↔ k ∉ keysOf l := by
  induction l with
  | nil => simp [lookupKey, keysOf]
  | cons p rest ih =>
    rcases p with ⟨k1, v1⟩
    by_cases h : k1 = k
    · subst h
      simp [lookupKey, keysOf]
    · have h2 : ¬k = k1 := fun hh => h hh.symm
      rw [lookupKey, if_neg h, ih]
      simp [keysOf, h2]

theorem noMultiE_lookup {es : List (String × PyVal)} {k : String} {v : PyVal}
    (h : noMultiE es = true) (hl : lookupKey es k = some v) :
    k ≠ "_multi_update" ∧ noMultiV v = true := by
  induction es with
  | nil => exact absurd hl (by simp [lookupKey])
  | cons p rest ih =>
    rcases p with ⟨k1, v1⟩
    rw [noMultiE, Bool.and_eq_true, Bool.and_eq_true, Bool.not_eq_true'] at h
    obtain ⟨⟨hk1, hv1⟩, hrest⟩ := h
    rw [lookupKey] at hl
    by_cases hkk : k1 = k
    · rw [if_pos hkk] at hl
      cases hl
      exact ⟨by rw [← hkk]; simpa using hk1, hv1⟩
    · rw [if_neg hkk] at hl
      exact ih hrest hl

theorem noMultiE_multi_none {es : List (String × PyVal)}
    (h : noMultiE es = true) : lookupKey es "_multi_update" = none := by
  cases hl : lookupKey es "_multi_update" with
  | none => rfl
  | some w => exact absurd rfl (noMultiE_lookup h hl).1

/-- The merge side only meets clean values in the target at its own
keys: the condition `deep_merge_multi_update` needs to avoid the
append-to-non-list error. -/
def goodFor (m d : List (String × PyVal)) : Bool :=
  m.all (fun kv =>
    match lookupKey d kv.1 with
    | some v => noMultiV v
    | none => true)

theorem goodFor_of_noMultiE (m d : List (String × PyVal))
    (h : noMultiE d = true) : goodFor m d = true := by
  rw [goodFor, List.all_eq_true]
  intro kv _
  cases hl : lookupKey d kv.1 with
  | none => rfl
  | some v => simpa using (noMultiE_lookup h hl).2

theorem goodFor_congr (m d1 d2 : List (String × PyVal))
    (h : ∀ k, k ∈ keysOf m → lookupKey d1 k = lookupKey d2 k) :
    goodFor m d1 = goodFor m d2 := by
  rw [goodFor, goodFor]
  induction m with
  | nil => rfl
  | cons p rest ih =>
    rw [List.all_cons, List.all_cons,
      h p.1 (by simp [keysOf]),
      ih (fun k hk => h k (by simp [keysOf] at hk ⊢; exact Or.inr hk))]

theorem noMultiV_pydict {i : Nat} {es : List (String × PyVal)} :
    noMultiV (.pydict i es) = noMultiE es := by
  rw [noMultiV]

theorem noMultiE_to_recov :
    ∀ es, noMultiE es = true → recovE es = true :=
  noMultiE.induct (fun v => noMultiV v = true → recovV v = true)
    (fun es => noMultiE es = true → recovE es = true)
    (fun i es ih h => by
      rw [noMultiV] at h
      rw [recovV, noMultiE_multi_none h]
      exact ih h)
    (fun t hnd _ => by
      rcases t with _ | _ | ⟨i, es⟩
      · rw [recovV]
        exact hnd
      · rw [recovV]
        exact hnd
      · exact absurd rfl (hnd i es))
    (fun _ => rfl)
    (fun k v rest ih1 ih2 h => by
      rw [noMultiE, Bool.and_eq_true, Bool.and_eq_true] at h
      rw [recovE, Bool.and_eq_true]
      exact ⟨ih1 h.1.2, ih2 h.2⟩)

theorem noMultiV_to_recov :
    ∀ v, noMultiV v = true → recovV v = true :=
  noMultiV.induct (fun v => noMultiV v = true → recovV v = true)
    (fun es => noMultiE es = true → recovE es = true)
    (fun i es ih h => by
      rw [noMultiV] at h
      rw [recovV, noMultiE_multi_none h]
      exact ih h)
    (fun t hnd _ => by
      rcases t with _ | _ | ⟨i, es⟩
      · rw [recovV]
        exact hnd
      · rw [recovV]
        exact hnd
      · exact absurd rfl (hnd i es))
    (fun _ => rfl)
    (fun k v rest ih1 ih2 h => by
      rw [noMultiE, Bool.and_eq_true, Bool.and_eq_true] at h
      rw [recovE, Bool.and_eq_true]
      exact ⟨ih1 h.1.2, ih2 h.2⟩)

theorem recovE_setKey (d : List (String × PyVal)) (k : String) (w : PyVal)
    (hd : recovE d = true) (hw : recovV w = true) :
    recovE (setKey d k w) = true := by
  induction d with
  | nil => simpa [setKey, recovE] using hw
  | cons p rest ih =>
    rcases p with ⟨k1, v1⟩
    rw [recovE, Bool.and_eq_true] at hd
    by_cases h : k1 = k
    · rw [setKey, if_pos h, recovE, Bool.and_eq_true]
      exact ⟨hw, hd.2⟩
    · rw [setKey, if_neg h, recovE, Bool.and_eq_true]
      exact ⟨hd.1, ih hd.2⟩

theorem except_bind_ok {α β : Type} (x : Except Unit α) (f : α → Except Unit β)
    (r : β) (h : (x >>= f) = .ok r) : ∃ a, x = .ok a ∧ f a = .ok r := by
  cases x with
  | error e => exact absurd h (by simp [Bind.bind, Except.bind])
  | ok a => exact ⟨a, rfl, by simpa [Bind.bind, Except.bind] using h⟩

theorem not_mem_keys_cons {α : Type} {k k0 : String} {v : α}
    {rest : List (String × α)} (h : k ∉ keysOf ((k0, v) :: rest)) :
    k ≠ k0 ∧ k ∉ keysOf rest := by
  simp [keysOf] at h ⊢
  exact h

theorem lookupKey_cons_self {α : Type} (k : String) (v : α)
    (rest : List (String × α)) : lookupKey ((k, v) :: rest) k = some v := by
  simp [lookupKey]

theorem lookupKey_cons_ne {α : Type} {k k0 : String} (v : α)
    (rest : List (String × α)) (h : k0 ≠ k) :
    lookupKey ((k0, v) :: rest) k = lookupKey rest k := by
  simp [lookupKey, h]

/-- Keys not named by the merge side are untouched by
`deep_merge_multi_update`. -/
theorem dmmu_lookup_not_mem (d m : List (String × PyVal)) :
    ∀ r k, deep_merge_multi_update d m = .ok r → k ∉ keysOf m →
      lookupKey r k = lookupKey d k := by
  induction d, m using deep_merge_multi_update.induct with
  | case1 d =>
    intro r k hok _
    rw [deep_merge_multi_update] at hok
    rw [← Except.ok.inj hok]
  | case2 d k0 rest di des mi mes h ih1 ih2 =>
    intro r k hok hk
    obtain ⟨hkk, hkr⟩ := not_mem_keys_cons hk
    rw [deep_merge_multi_update.eq_2 d k0 rest di des mi mes h] at hok
    obtain ⟨merged, hin, hok2⟩ := except_bind_ok _ _ _ hok
    rw [ih2 merged r k hok2 hkr, lookupKey_setKey_ne d k0 k _ hkk]
  | case3 d k0 mv rest di des h li items hml hnd ih =>
    intro r k hok hk
    obtain ⟨hkk, hkr⟩ := not_mem_keys_cons hk
    rw [deep_merge_multi_update.eq_3 d k0 rest mv di des h hnd] at hok
    simp only [hml] at hok
    rw [ih r k hok hkr, lookupKey_setKey_ne d k0 k _ hkk]
  | case4 d k0 mv rest di des h val hnl hml hnd =>
    intro r k hok hk
    rw [deep_merge_multi_update.eq_3 d k0 rest mv di des h hnd] at hok
    rw [hml] at hok
    rcases val with ⟨i, p⟩ | ⟨li, items⟩ | ⟨i, es⟩
    · exact absurd hok (by simp)
    · exact absurd rfl (hnl li items)
    · exact absurd hok (by simp)
  | case5 d k0 mv rest di des h hml hnd ih =>
    intro r k hok hk
    obtain ⟨hkk, hkr⟩ := not_mem_keys_cons hk
    rw [deep_merge_multi_update.eq_3 d k0 rest mv di des h hnd] at hok
    simp only [hml] at hok
    rw [ih r k hok hkr, lookupKey_setKey_ne d k0 k _ hkk]
  | case6 d k0 mv rest dv hdnd h hnd ih =>
    intro r k hok hk
    obtain ⟨hkk, hkr⟩ := not_mem_keys_cons hk
    rw [deep_merge_multi_update.eq_4 d k0 rest mv dv hdnd h hnd] at hok
    rw [ih r k hok hkr, lookupKey_setKey_ne d k0 k _ hkk]
  | case7 d k0 mv rest h ih =>
    intro r k hok hk
    obtain ⟨hkk, hkr⟩ := not_mem_keys_cons hk
    rw [deep_merge_multi_update.eq_5 d k0 rest mv h] at hok
    rw [ih r k hok hkr, lookupKey_setKey_ne d k0 k _ hkk]

theorem goodFor_cons_elim {k0 : String} {mv0 : PyVal}
    {rest d : List (String × PyVal)}
    (h : goodFor ((k0, mv0) :: rest) d = true) :
    (∀ v, lookupKey d k0 = some v → noMultiV v = true) ∧
      goodFor rest d = true := by
  rw [goodFor, List.all_cons, Bool.and_eq_true] at h
  refine ⟨fun v hv => ?_, by rw [goodFor]; exact h.2⟩
  have h1 := h.1
  rw [hv] at h1
  exact h1

/-- On clean inputs `deep_merge_multi_update` succeeds and its result
is fully recoverable by `remove_multi_update`. -/
theorem dmmu_ok_recov (d m : List (String × PyVal)) :
    nodupKeys m = true → wfEntries m = true → noMultiE m = true →
    goodFor m d = true → recovE d = true →
    ∃ r, deep_merge_multi_update d m = .ok r ∧ recovE r = true := by
  induction d, m using deep_merge_multi_update.induct with
  | case1 d =>
    intro _ _ _ _ hd
    exact ⟨d, by rw [deep_merge_multi_update], hd⟩
  | case2 d k0 rest di des mi mes h ih1 ih2 =>
    intro hnd hwf hnm hgf hrd
    obtain ⟨hany, hndr⟩ := nodupKeys_cons_elim hnd
    rw [wfEntries, Bool.and_eq_true] at hwf
    rw [noMultiE, Bool.and_eq_true, Bool.and_eq_true] at hnm
    obtain ⟨hgk, hgr⟩ := goodFor_cons_elim hgf
    have hdes : noMultiE des = true := by
      have h2 := hgk _ h
      rwa [noMultiV] at h2
    have hmes : noMultiE mes = true := by
      have h2 := hnm.1.2
      rwa [noMultiV] at h2
    have hwfmes := wfVal_pydict_elim hwf.1
    rw [wfDict, Bool.and_eq_true] at hwfmes
    obtain ⟨merged, hin, hrm⟩ := ih1 hwfmes.1 hwfmes.2 hmes
      (goodFor_of_noMultiE mes des hdes) (noMultiE_to_recov des hdes)
    have hmerge_multi : lookupKey merged "_multi_update" = none := by
      rw [dmmu_lookup_not_mem des mes merged "_multi_update" hin
        ((lookupKey_none_iff mes "_multi_update").mp (noMultiE_multi_none hmes))]
      exact noMultiE_multi_none hdes
    have hrec_merged : recovV (.pydict di merged) = true := by
      rw [recovV, hmerge_multi]
      exact hrm
    have hgfr : goodFor rest (setKey d k0 (.pydict di merged)) = true := by
      rw [goodFor_congr rest _ d (fun k2 hk2 =>
        lookupKey_setKey_ne d k0 k2 _ (ne_of_any_keys_false hany hk2))]
      exact hgr
    obtain ⟨r, hokr, hrr⟩ := ih2 merged hndr hwf.2 hnm.2 hgfr
      (recovE_setKey d k0 _ hrd hrec_merged)
    refine ⟨r, ?_, hrr⟩
    rw [deep_merge_multi_update.eq_2 d k0 rest di des mi mes h, hin]
    exact hokr
  | case3 d k0 mv rest di des h li items hml hnd ih =>
    intro _ _ _ hgf _
    obtain ⟨hgk, _⟩ := goodFor_cons_elim hgf
    have hdes : noMultiE des = true := by
      have h2 := hgk _ h
      rwa [noMultiV] at h2
    rw [noMultiE_multi_none hdes] at hml
    exact Option.noConfusion hml
  | case4 d k0 mv rest di des h val hnl hml hnd =>
    intro _ _ _ hgf _
    obtain ⟨hgk, _⟩ := goodFor_cons_elim hgf
    have hdes : noMultiE des = true := by
      have h2 := hgk _ h
      rwa [noMultiV] at h2
    rw [noMultiE_multi_none hdes] at hml
    exact Option.noConfusion hml
  | case5 d k0 mv rest di des h hml hnd ih =>
    intro hnd2 hwf hnm hgf hrd
    obtain ⟨hany, hndr⟩ := nodupKeys_cons_elim hnd2
    rw [wfEntries, Bool.and_eq_true] at hwf
    rw [noMultiE, Bool.and_eq_true, Bool.and_eq_true] at hnm
    obtain ⟨hgk, hgr⟩ := goodFor_cons_elim hgf
    have hrec_w : recovV (.pydict 0
        [("_multi_update", .pylist 0 [.pydict di des, mv])]) = true := by
      rw [recovV, lookupKey_cons_self]
    have hgfr : goodFor rest (setKey d k0 (.pydict 0
        [("_multi_update", .pylist 0 [.pydict di des, mv])])) = true := by
      rw [goodFor_congr rest _ d (fun k2 hk2 =>
        lookupKey_setKey_ne d k0 k2 _ (ne_of_any_keys_false hany hk2))]
      exact hgr
    obtain ⟨r, hokr, hrr⟩ := ih hndr hwf.2 hnm.2 hgfr
      (recovE_setKey d k0 _ hrd hrec_w)
    refine ⟨r, ?_, hrr⟩
    rw [deep_merge_multi_update.eq_3 d k0 rest mv di des h hnd]
    simp only [hml]
    exact hokr
  | case6 d k0 mv rest dv hdnd h hnd ih =>
    intro hnd2 hwf hnm hgf hrd
    obtain ⟨hany, hndr⟩ := nodupKeys_cons_elim hnd2
    rw [wfEntries, Bool.and_eq_true] at hwf
    rw [noMultiE, Bool.and_eq_true, Bool.and_eq_true] at hnm
    obtain ⟨hgk, hgr⟩ := goodFor_cons_elim hgf
    have hrec_w : recovV (.pydict 0
        [("_multi_update", .pylist 0 [dv, mv])]) = true := by
      rw [recovV, lookupKey_cons_self]
    have hgfr : goodFor rest (setKey d k0 (.pydict 0
        [("_multi_update", .pylist 0 [dv, mv])])) = true := by
      rw [goodFor_congr rest _ d (fun k2 hk2 =>
        lookupKey_setKey_ne d k0 k2 _ (ne_of_any_keys_false hany hk2))]
      exact hgr
    obtain ⟨r, hokr, hrr⟩ := ih hndr hwf.2 hnm.2 hgfr
      (recovE_setKey d k0 _ hrd hrec_w)
    refine ⟨r, ?_, hrr⟩
    rw [deep_merge_multi_update.eq_4 d k0 rest mv dv hdnd h hnd]
    exact hokr
  | case7 d k0 mv rest h ih =>
    intro hnd2 hwf hnm hgf hrd
    obtain ⟨hany, hndr⟩ := nodupKeys_cons_elim hnd2
    rw [wfEntries, Bool.and_eq_true] at hwf
    rw [noMultiE, Bool.and_eq_true, Bool.and_eq_true] at hnm
    obtain ⟨hgk, hgr⟩ := goodFor_cons_elim hgf
    have hgfr : goodFor rest (setKey d k0 mv) = true := by
      rw [goodFor_congr rest _ d (fun k2 hk2 =>
        lookupKey_setKey_ne d k0 k2 _ (ne_of_any_keys_false hany hk2))]
      exact hgr
    obtain ⟨r, hokr, hrr⟩ := ih hndr hwf.2 hnm.2 hgfr
      (recovE_setKey d k0 _ hrd (noMultiV_to_recov mv hnm.1.2))
    refine ⟨r, ?_, hrr⟩
    rw [deep_merge_multi_update.eq_5 d k0 rest mv h]
    exact hokr

/-- At a shared key holding two non-dict values, a successful
`deep_merge_multi_update` stores the `_multi_update` wrapper of the
two values. -/
theorem dmmu_conflict_lookup (d m : List (String × PyVal)) :
    ∀ r k dv mv, nodupKeys m = true →
      deep_merge_multi_update d m = .ok r →
      lookupKey d k = some dv → isDict dv = false →
      lookupKey m k = some mv → isDict mv = false →
      lookupKey r k =
        some (.pydict 0 [("_multi_update", .pylist 0 [dv, mv])]) := by
  induction d, m using deep_merge_multi_update.induct with
  | case1 d =>
    intro r k dv mv _ _ _ _ hmk _
    exact absurd hmk (by simp [lookupKey])
  | case2 d k0 rest di des mi mes h ih1 ih2 =>
    intro r k dv mv hnd hok hdk hdv hmk hmv
    obtain ⟨hany, hndr⟩ := nodupKeys_cons_elim hnd
    rw [deep_merge_multi_update.eq_2 d k0 rest di des mi mes h] at hok
    obtain ⟨merged, hin, hok2⟩ := except_bind_ok _ _ _ hok
    by_cases hkk : k0 = k
    · subst hkk
      rw [lookupKey_cons_self] at hmk
      cases hmk
      simp [isDict] at hmv
    · rw [lookupKey_cons_ne _ _ hkk] at hmk
      have hdk2 : lookupKey (setKey d k0 (.pydict di merged)) k = some dv := by
        rw [lookupKey_setKey_ne d k0 k _ (fun hh => hkk hh.symm)]
        exact hdk
      exact ih2 merged r k dv mv hndr hok2 hdk2 hdv hmk hmv
  | case3 d k0 mv0 rest di des h li items hml hnd ih =>
    intro r k dv mv hnd2 hok hdk hdv hmk hmv
    obtain ⟨hany, hndr⟩ := nodupKeys_cons_elim hnd2
    rw [deep_merge_multi_update.eq_3 d k0 rest mv0 di des h hnd] at hok
    simp only [hml] at hok
    by_cases hkk : k0 = k
    · subst hkk
      rw [h] at hdk
      cases hdk
      simp [isDict] at hdv
    · rw [lookupKey_cons_ne _ _ hkk] at hmk
      have hdk2 : lookupKey (setKey d k0 (.pydict di
          (setKey des "_multi_update" (.pylist li (items ++ [mv0]))))) k =
          some dv := by
        rw [lookupKey_setKey_ne d k0 k _ (fun hh => hkk hh.symm)]
        exact hdk
      exact ih r k dv mv hndr hok hdk2 hdv hmk hmv
  | case4 d k0 mv0 rest di des h val hnl hml hnd =>
    intro r k dv mv hnd2 hok hdk hdv hmk hmv
    rw [deep_merge_multi_update.eq_3 d k0 rest mv0 di des h hnd] at hok
    rw [hml] at hok
    rcases val with ⟨i, p⟩ | ⟨li, items⟩ | ⟨i, es⟩
    · exact absurd hok (by simp)
    · exact absurd rfl (hnl li items)
    · exact absurd hok (by simp)
  | case5 d k0 mv0 rest di des h hml hnd ih =>
    intro r k dv mv hnd2 hok hdk hdv hmk hmv
    obtain ⟨hany, hndr⟩ := nodupKeys_cons_elim hnd2
    rw [deep_merge_multi_update.eq_3 d k0 rest mv0 di des h hnd] at hok
    simp only [hml] at hok
    by_cases hkk : k0 = k
    · subst hkk
      rw [h] at hdk
      cases hdk
      simp [isDict] at hdv
    · rw [lookupKey_cons_ne _ _ hkk] at hmk
      have hdk2 : lookupKey (setKey d k0 (.pydict 0
          [("_multi_update", .pylist 0 [.pydict di des, mv0])])) k =
          some dv := by
        rw [lookupKey_setKey_ne d k0 k _ (fun hh => hkk hh.symm)]
        exact hdk
      exact ih r k dv mv hndr hok hdk2 hdv hmk hmv
  | case6 d k0 mv0 rest dv0 hdnd h hnd ih =>
    intro r k dv mv hnd2 hok hdk hdv hmk hmv
    obtain ⟨hany, hndr⟩ := nodupKeys_cons_elim hnd2
    rw [deep_merge_multi_update.eq_4 d k0 rest mv0 dv0 hdnd h hnd] at hok
    by_cases hkk : k0 = k
    · subst hkk
      rw [h] at hdk
      cases hdk
      rw [lookupKey_cons_self] at hmk
      cases hmk
      have hknr : k0 ∉ keysOf rest :=
        fun hh => absurd rfl (ne_of_any_keys_false hany hh)
      rw [dmmu_lookup_not_mem _ rest r k0 hok hknr,
        lookupKey_setKey_self]
    · rw [lookupKey_cons_ne _ _ hkk] at hmk
      have hdk2 : lookupKey (setKey d k0 (.pydict 0
          [("_multi_update", .pylist 0 [dv0, mv0])])) k = some dv := by
        rw [lookupKey_setKey_ne d k0 k _ (fun hh => hkk hh.symm)]
        exact hdk
      exact ih r k dv mv hndr hok hdk2 hdv hmk hmv
  | case7 d k0 mv0 rest h ih =>
    intro r k dv mv hnd2 hok hdk hdv hmk hmv
    obtain ⟨hany, hndr⟩ := nodupKeys_cons_elim hnd2
    rw [deep_merge_multi_update.eq_5 d k0 rest mv0 h] at hok
    by_cases hkk : k0 = k
    · subst hkk
      rw [h] at hdk
      exact Option.noConfusion hdk
    · rw [lookupKey_cons_ne _ _ hkk] at hmk
      have hdk2 : lookupKey (setKey d k0 mv0) k = some dv := by
        rw [lookupKey_setKey_ne d k0 k _ (fun hh => hkk hh.symm)]
        exact hdk
      exact ih r k dv mv hndr hok hdk2 hdv hmk hmv

/-- Keys present only on the merge side take the merge side's value. -/
theorem dmmu_new_key_lookup (d m : List (String × PyVal)) :
    ∀ r k mv, nodupKeys m = true →
      deep_merge_multi_update d m = .ok r →
      lookupKey d k = none → lookupKey m k = some mv →
      lookupKey r k = some mv := by
  induction d, m using deep_merge_multi_update.induct with
  | case1 d =>
    intro r k mv _ _ _ hmk
    exact absurd hmk (by simp [lookupKey])
  | case2 d k0 rest di des mi mes h ih1 ih2 =>
    intro r k mv hnd hok hdk hmk
    obtain ⟨hany, hndr⟩ := nodupKeys_cons_elim hnd
    rw [deep_merge_multi_update.eq_2 d k0 rest di des mi mes h] at hok
    obtain ⟨merged, hin, hok2⟩ := except_bind_ok _ _ _ hok
    by_cases hkk : k0 = k
    · subst hkk
      rw [h] at hdk
      exact Option.noConfusion hdk
    · rw [lookupKey_cons_ne _ _ hkk] at hmk
      have hdk2 : lookupKey (setKey d k0 (.pydict di merged)) k = none := by
        rw [lookupKey_setKey_ne d k0 k _ (fun hh => hkk hh.symm)]
        exact hdk
      exact ih2 merged r k mv hndr hok2 hdk2 hmk
  | case3 d k0 mv0 rest di des h li items hml hnd ih =>
    intro r k mv hnd2 hok hdk hmk
    obtain ⟨hany, hndr⟩ := nodupKeys_cons_elim hnd2
    rw [deep_merge_multi_update.eq_3 d k0 rest mv0 di des h hnd] at hok
    simp only [hml] at hok
    by_cases hkk : k0 = k
    · subst hkk
      rw [h] at hdk
      exact Option.noConfusion hdk
    · rw [lookupKey_cons_ne _ _ hkk] at hmk
      have hdk2 : lookupKey (setKey d k0 (.pydict di
          (setKey des "_multi_update" (.pylist li (items ++ [mv0]))))) k =
          none := by
        rw [lookupKey_setKey_ne d k0 k _ (fun hh => hkk hh.symm)]
        exact hdk
      exact ih r k mv hndr hok hdk2 hmk
  | case4 d k0 mv0 rest di des h val hnl hml hnd =>
    intro r k mv hnd2 hok hdk hmk
    rw [deep_merge_multi_update.eq_3 d k0 rest mv0 di des h hnd] at hok
    rw [hml] at hok
    rcases val with ⟨i, p⟩ | ⟨li, items⟩ | ⟨i, es⟩
    · exact absurd hok (by simp)
    · exact absurd rfl (hnl li items)
    · exact absurd hok (by simp)
  | case5 d k0 mv0 rest di des h hml hnd ih =>
    intro r k mv hnd2 hok hdk hmk
    obtain ⟨hany, hndr⟩ := nodupKeys_cons_elim hnd2
    rw [deep_merge_multi_update.eq_3 d k0 rest mv0 di des h hnd] at hok
    simp only [hml] at hok
    by_cases hkk : k0 = k
    · subst hkk
      rw [h] at hdk
      exact Option.noConfusion hdk
    · rw [lookupKey_cons_ne _ _ hkk] at hmk
      have hdk2 : lookupKey (setKey d k0 (.pydict 0
          [("_multi_update", .pylist 0 [.pydict di des, mv0])])) k =
          none := by
        rw [lookupKey_setKey_ne d k0 k _ (fun hh => hkk hh.symm)]
        exact hdk
      exact ih r k mv hndr hok hdk2 hmk
  | case6 d k0 mv0 rest dv0 hdnd h hnd ih =>
    intro r k mv hnd2 hok hdk hmk
    obtain ⟨hany, hndr⟩ := nodupKeys_cons_elim hnd2
    rw [deep_merge_multi_update.eq_4 d k0 rest mv0 dv0 hdnd h hnd] at hok
    by_cases hkk : k0 = k
    · subst hkk
      rw [h] at hdk
      exact Option.noConfusion hdk
    · rw [lookupKey_cons_ne _ _ hkk] at hmk
      have hdk2 : lookupKey (setKey d k0 (.pydict 0
          [("_multi_update", .pylist 0 [dv0, mv0])])) k = none := by
        rw [lookupKey_setKey_ne d k0 k _ (fun hh => hkk hh.symm)]
        exact hdk
      exact ih r k mv hndr hok hdk2 hmk
  | case7 d k0 mv0 rest h ih =>
    intro r k mv hnd2 hok hdk hmk
    obtain ⟨hany, hndr⟩ := nodupKeys_cons_elim hnd2
    rw [deep_merge_multi_update.eq_5 d k0 rest mv0 h] at hok
    by_cases hkk : k0 = k
    · subst hkk
      rw [lookupKey_cons_self] at hmk
      cases hmk
      have hknr : k0 ∉ keysOf rest :=
        fun hh => absurd rfl (ne_of_any_keys_false hany hh)
      rw [dmmu_lookup_not_mem _ rest r k0 hok hknr, lookupKey_setKey_self]
    · rw [lookupKey_cons_ne _ _ hkk] at hmk
      have hdk2 : lookupKey (setKey d k0 mv0) k = none := by
        rw [lookupKey_setKey_ne d k0 k _ (fun hh => hkk hh.symm)]
        exact hdk
      exact ih r k mv hndr hok hdk2 hmk

/-- On a recoverable dict, `remove_multi_update` succeeds and replaces
every `_multi_update`-wrapped value by the first element of its
list. -/
theorem remove_ok_of_recov (es : List (String × PyVal)) :
    recovE es = true →
    ∃ r2, remove_multi_update es = .ok r2 ∧
      ∀ k di es2 li x tl, lookupKey es k = some (.pydict di es2) →
        lookupKey es2 "_multi_update" = some (.pylist li (x :: tl)) →
        lookupKey r2 k = some x := by
  induction es using remove_multi_update.induct with
  | case1 =>
    intro _
    exact ⟨[], remove_multi_update.eq_1,
      fun k di es2 li x tl hl _ => absurd hl (by simp [lookupKey])⟩
  | case2 k0 rest i es2 li0 x0 t0 hl ih =>
    intro hr
    rw [recovE, Bool.and_eq_true] at hr
    obtain ⟨r2, hok, hsel⟩ := ih hr.2
    refine ⟨(k0, x0) :: r2, ?_, ?_⟩
    · rw [remove_multi_update.eq_2]
      simp only [hl, hok]
      rfl
    · intro k di es2' li x tl hlk hlm
      by_cases hkk : k0 = k
      · subst hkk
        rw [lookupKey_cons_self] at hlk
        cases hlk
        rw [hl] at hlm
        cases hlm
        rw [lookupKey_cons_self]
      · rw [lookupKey_cons_ne _ _ hkk] at hlk
        rw [lookupKey_cons_ne _ _ hkk]
        exact hsel k di es2' li x tl hlk hlm
  | case3 k0 rest i es2 val hnl hl =>
    intro hr
    rw [recovE, Bool.and_eq_true] at hr
    have hrv := hr.1
    rw [recovV, hl] at hrv
    rcases val with ⟨j, p⟩ | ⟨lj, items⟩ | ⟨j, fs⟩
    · exact absurd hrv (by simp)
    · rcases items with _ | ⟨x, tl⟩
      · exact absurd hrv (by simp)
      · exact absurd rfl (hnl lj x tl)
    · exact absurd hrv (by simp)
  | case4 k0 rest i es2 hl ih1 ih2 =>
    intro hr
    rw [recovE, Bool.and_eq_true] at hr
    have hrv := hr.1
    rw [recovV, hl] at hrv
    obtain ⟨rin, hokin, _⟩ := ih1 hrv
    obtain ⟨r2, hok, hsel⟩ := ih2 hr.2
    refine ⟨(k0, .pydict 0 rin) :: r2, ?_, ?_⟩
    · rw [remove_multi_update.eq_2]
      simp only [hl, hokin, hok]
      rfl
    · intro k di es2' li x tl hlk hlm
      by_cases hkk : k0 = k
      · subst hkk
        rw [lookupKey_cons_self] at hlk
        cases hlk
        rw [hl] at hlm
        exact Option.noConfusion hlm
      · rw [lookupKey_cons_ne _ _ hkk] at hlk
        rw [lookupKey_cons_ne _ _ hkk]
        exact hsel k di es2' li x tl hlk hlm
  | case5 k0 v rest hnd ih =>
    intro hr
    rw [recovE, Bool.and_eq_true] at hr
    obtain ⟨r2, hok, hsel⟩ := ih hr.2
    refine ⟨(k0, v) :: r2, ?_, ?_⟩
    · rw [remove_multi_update.eq_3 k0 v rest hnd]
      simp only [hok]
      rfl
    · intro k di es2' li x tl hlk hlm
      by_cases hkk : k0 = k
      · subst hkk
        rw [lookupKey_cons_self] at hlk
        cases hlk
        exact absurd rfl (hnd di es2')
      · rw [lookupKey_cons_ne _ _ hkk] at hlk
        rw [lookupKey_cons_ne _ _ hkk]
        exact hsel k di es2' li x tl hlk hlm

/-- C10: for nested dicts d (free of `_multi_update` keys) and m
(well-formed and free of `_multi_update` keys) and every shared key k
at which both hold a non-dict value, `deep_merge_multi_update(d, m)`
replaces the value at k with `{_multi_update: [d[k], m[k]]}`, and
`remove_multi_update` of the merged result selects the first list
element — recovering d's original value at k — while keys present
only in m take m's value. -/
theorem c10_multi_update_round_trip (d m : List (String × PyVal)) (k : String)
    (dv mv : PyVal) (hnm : nodupKeys m = true) (hwm : wfEntries m = true)
    (hmm : noMultiE m = true) (hmd : noMultiE d = true)
    (hdk : lookupKey d k = some dv) (hdv : isDict dv = false)
    (hmk : lookupKey m k = some mv) (hmv : isDict mv = false) :
    ∃ r, deep_merge_multi_update d m = .ok r ∧
      lookupKey r k =
        some (.pydict 0 [("_multi_update", .pylist 0 [dv, mv])]) ∧
      (∃ r2, remove_multi_update r = .ok r2 ∧ lookupKey r2 k = some dv) ∧
      (∀ k2 v2, lookupKey m k2 = some v2 → lookupKey d k2 = none →
        lookupKey r k2 = some v2) := by
  obtain ⟨r, hok, hrec⟩ := dmmu_ok_recov d m hnm hwm hmm
    (goodFor_of_noMultiE m d hmd) (noMultiE_to_recov d hmd)
  have hwrap := dmmu_conflict_lookup d m r k dv mv hnm hok hdk hdv hmk hmv
  obtain ⟨r2, hok2, hsel⟩ := remove_ok_of_recov r hrec
  refine ⟨r, hok, hwrap, ⟨r2, hok2, ?_⟩,
    fun k2 v2 hm2 hd2 => dmmu_new_key_lookup d m r k2 v2 hnm hok hd2 hm2⟩
  exact hsel k 0 [("_multi_update", .pylist 0 [dv, mv])] 0 dv [mv] hwrap
    (lookupKey_cons_self _ _ _)

/-- Witness for C10: d = {a: obj 0 (1), c: obj 1 (5)},
m = {a: obj 2 (3), b: obj 3 (4)}, shared key a. -/
theorem c10_multi_update_round_trip_witness :
    ∃ r, deep_merge_multi_update
        [("a", .obj 0 1), ("c", .obj 1 5)]
        [("a", .obj 2 3), ("b", .obj 3 4)] = .ok r ∧
      lookupKey r "a" =
        some (.pydict 0
          [("_multi_update", .pylist 0 [.obj 0 1, .obj 2 3])]) ∧
      (∃ r2, remove_multi_update r = .ok r2 ∧
        lookupKey r2 "a" = some (.obj 0 1)) ∧
      (∀ k2 v2,
        lookupKey [("a", PyVal.obj 2 3), ("b", PyVal.obj 3 4)] k2 = some v2 →
        lookupKey [("a", PyVal.obj 0 1), ("c", PyVal.obj 1 5)] k2 = none →
        lookupKey r k2 = some v2) :=
  c10_multi_update_round_trip [("a", .obj 0 1), ("c", .obj 1 5)]
    [("a", .obj 2 3), ("b", .obj 3 4)] "a" (.obj 0 1) (.obj 2 3)
    (by decide) (by decide) (by decide) (by decide) rfl rfl rfl rfl
